import Mathlib

/-!
Verification of the ZIP archive support layer of VICEVita
(src/arch/psvita/zip_support.cpp) against its natural-language
specification.

C strings are modelled as `List Char` (NUL-free by construction of a C
string; the terminating NUL is the end of the list).  `char*` arguments
that may be NULL are `Option (List Char)`.  Machine `size_t` arithmetic
is modelled on `Nat` with explicit reduction modulo `2 ^ 64` where wrap
matters.  The minizip codec is an opaque collaborator: an open codec
session is a list of raw entry records carrying the outcome of each
codec primitive (`unzGetCurrentFileInfo`, `unzOpenCurrentFile`,
`unzReadCurrentFile`) together with the decompressed bytes it would
deliver.  Filesystem primitives (`sceIoOpen`, `sceIoWrite`) are an
oracle structure.
-/

/-- ASCII lower-casing of one char, as done inline by `strcasecmp_custom`:
`(*s >= 'A' && *s <= 'Z') ? *s + 32 : *s`. -/
def lowerAscii (c : Char) : Char :=
  if 'A' ≤ c ∧ c ≤ 'Z' then Char.ofNat (c.toNat + 32) else c

/-- `strcasecmp_custom` from zip_support.cpp lines 17-25: walk both strings
while both are not at their terminator, comparing ASCII-folded characters;
on the first folded mismatch return the signed difference, otherwise return
the difference of the terminating characters (0 and 0 when both ended). -/
def strcasecmp_custom : List Char → List Char → Int
  | c1 :: s1, c2 :: s2 =>
      if lowerAscii c1 ≠ lowerAscii c2 then (lowerAscii c1).toNat - ((lowerAscii c2).toNat : Int)
      else strcasecmp_custom s1 s2
  | s1, s2 => (s1.headD (Char.ofNat 0)).toNat - ((s2.headD (Char.ofNat 0)).toNat : Int)

/-- C `strrchr(s, c)`: the suffix of `s` starting at the LAST occurrence of
`c`, or none when `c` does not occur. -/
def strrchr : List Char → Char → Option (List Char)
  | [], _ => none
  | x :: xs, c =>
      match strrchr xs c with
      | some r => some r
      | none => if x = c then some (x :: xs) else none

/-- One decimal digit rendered as a character (`std::to_string` building
block). -/
def digitChar (d : Nat) : Char := Char.ofNat (48 + d)

/-- Decimal digit accumulation for `std::to_string`: peel digits from the
least significant end onto the accumulator.  `fuel` bounds the recursion
depth structurally; a number's digit count never exceeds the number
itself, so `fuel = n` renders `n` completely. -/
def natDigitsAux : Nat → Nat → List Char → List Char
  | 0, _, acc => acc
  | fuel + 1, n, acc =>
      if n = 0 then acc else natDigitsAux fuel (n / 10) (digitChar (n % 10) :: acc)

/-- `std::to_string` on a non-negative integer. -/
def std_to_string (n : Nat) : List Char :=
  if n = 0 then [digitChar 0] else natDigitsAux n n []

/-- Decimal re-interpretation of a digit string; used only to prove that
`std_to_string` is injective. -/
def decimalVal (s : List Char) : Nat :=
  s.foldl (fun a c => 10 * a + (c.toNat - 48)) 0

/-- Raw entry record, the view of one container entry through the codec's
primitives. -/
structure RawEntry where
  /-- The entry name the codec reports (`unzGetCurrentFileInfo` filename). -/
  name : List Char
  /-- Whether `unzGetCurrentFileInfo` succeeds on this entry. -/
  info_ok : Bool
  uncompressed_size : Nat
  compressed_size : Nat
  /-- Whether `unzOpenCurrentFile` succeeds on this entry. -/
  open_ok : Bool
  /-- Whether `unzReadCurrentFile` reads without an error code. -/
  read_ok : Bool
  /-- The decompressed bytes the codec can actually deliver for this entry. -/
  content : List Nat
deriving Repr, DecidableEq

/-- `ZipEntry` of zip_support.cpp lines 31-37. -/
structure ZipEntry where
  filename : List Char
  path : List Char
  uncompressed_size : Nat
  compressed_size : Nat
  is_directory : Bool
deriving Repr, DecidableEq

/-- `ZipArchiveHandle` of zip_support.cpp lines 40-45; `handle` (the codec
session) is modelled by the raw entry list the session exposes. -/
structure ZipArchiveHandle where
  raw : List RawEntry
  archive_path : List Char
  is_open : Bool
  entries : List ZipEntry
deriving Repr, DecidableEq

/-- `MAX_FILENAME_LENGTH` (zip_support.cpp line 27): size of the stack
buffer the entry name is copied into. -/
def MAX_FILENAME_LENGTH : Nat := 512

/-- `size_t` modulus for the Vita's 64-bit distribution of minizip
arithmetic (`strlen(...) - 1` wraps in `size_t`). -/
def SIZE_T_MOD : Nat := 2 ^ 64

/-- The index `strlen(filename) - 1` computed in `size_t` arithmetic
(zip_support.cpp line 75). -/
def dirFlagIndex (name : List Char) : Nat :=
  (name.length + (SIZE_T_MOD - 1)) % SIZE_T_MOD

/-- The read `filename[strlen(filename) - 1]` stays inside the string. -/
def dirFlagIndexInBounds (name : List Char) : Prop :=
  dirFlagIndex name < name.length

instance (name : List Char) : Decidable (dirFlagIndexInBounds name) := by
  unfold dirFlagIndexInBounds; infer_instance

/-- The directory flag the catalog stores: the character the in-bounds read
yields compared against a slash (zip_support.cpp line 75).  Defined via the
last character; the bounds analysis of the raw read is `dirFlagIndex`. -/
def deriveIsDirectory (name : List Char) : Bool :=
  decide (name.getLast? = some '/')

/-- Catalog record built from one raw entry (zip_support.cpp lines 70-75). -/
def mkEntry (e : RawEntry) : ZipEntry :=
  { filename := e.name
    path := e.name
    uncompressed_size := e.uncompressed_size
    compressed_size := e.compressed_size
    is_directory := deriveIsDirectory e.name }

/-- The catalog do-while loop (zip_support.cpp lines 61-79): read the
current entry's metadata; on failure `continue` jumps to the loop condition
`unzGoToNextFile(...) == UNZ_OK`, so the cursor advances and only the push
is skipped; on success the entry is pushed and the cursor advances. -/
def listLoop : List RawEntry → List ZipEntry
  | [] => []
  | e :: rest => if e.info_ok then mkEntry e :: listLoop rest else listLoop rest

/-- `zip_list_contents_internal` (zip_support.cpp lines 51-82): fails on a
null or closed handle, fails when `unzGoToFirstFile` fails (no listable
first entry), otherwise runs the do-while loop over the session. -/
def zip_list_contents_internal (archive : Option ZipArchiveHandle) : Option (List ZipEntry) :=
  match archive with
  | none => none
  | some a =>
      if ¬a.is_open then none
      else if a.raw = [] then none
      else some (listLoop a.raw)

/-- `zip_is_archive` (zip_support.cpp lines 84-91): null and dot-less names
fail; otherwise the suffix from the last dot is compared case-insensitively
against ".zip". -/
def zip_is_archive (filename : Option (List Char)) : Int :=
  match filename with
  | none => 0
  | some s =>
      match strrchr s '.' with
      | none => 0
      | some ext => if strcasecmp_custom ext (String.toList ".zip") = 0 then 1 else 0

/-- `zip_open_archive` (zip_support.cpp lines 93-115): null paths and paths
failing `zip_is_archive` yield no handle; the codec (`unzOpen`, behaviour
oracle `fs`) may fail; on success the handle is created open and the
catalog is captured once, with the internal listing's failure ignored (the
entry vector stays empty).  Registration of the handle in the global
tracking vector is a side effect on the registry state, modelled separately
by the registry component below. -/
def zip_open_archive (fs : List Char → Option (List RawEntry))
    (archive_path : Option (List Char)) : Option ZipArchiveHandle :=
  match archive_path with
  | none => none
  | some p =>
      if zip_is_archive (some p) ≠ 1 then none
      else
        match fs p with
        | none => none
        | some raw =>
            let archive0 : ZipArchiveHandle :=
              { raw := raw, archive_path := p, is_open := true, entries := [] }
            some { archive0 with
                    entries := (zip_list_contents_internal (some archive0)).getD [] }

/-- Output of `zip_extract_file_internal`: the C return value together with
the final contents of the caller's `*data` and `*size` cells. -/
structure ExtractOut where
  ret : Bool
  data : Option (List Nat)
  size : Int
deriving Repr, DecidableEq

/-- `unzLocateFile(uf, filename, 0)`: exact (case-sensitive) name lookup,
first match in stored order. -/
def unzLocateFile (raw : List RawEntry) (filename : List Char) : Option RawEntry :=
  raw.find? (fun e => e.name = filename)

/-- Result of `unzReadCurrentFile(uf, buf, len)` on entry `e`: an error
code when the codec read fails, otherwise the number of bytes delivered,
never more than `len` nor more than the entry really holds. -/
def unzReadResult (e : RawEntry) (len : Nat) : Int :=
  if e.read_ok then (min e.content.length len : Nat) else -1

/-- `zip_extract_file_internal` (zip_support.cpp lines 137-173).
`data_ptr`/`size_ptr` say whether the out-pointers are non-null;
`dataIn`/`sizeIn` are the cells' contents on entry (left untouched by the
argument-check early return, which precedes the nulling writes). -/
def zip_extract_file_internal (archive : Option ZipArchiveHandle)
    (filename : Option (List Char)) (data_ptr size_ptr : Bool)
    (dataIn : Option (List Nat)) (sizeIn : Int) : ExtractOut :=
  match archive, filename with
  | some a, some fn =>
      if ¬a.is_open ∨ ¬data_ptr ∨ ¬size_ptr then ⟨false, dataIn, sizeIn⟩
      else
        match unzLocateFile a.raw fn with
        | none => ⟨false, none, 0⟩
        | some e =>
            if ¬e.info_ok then ⟨false, none, 0⟩
            else if ¬e.open_ok then ⟨false, none, 0⟩
            else
              let sz := e.uncompressed_size
              let bytes_read := unzReadResult e sz
              if bytes_read ≠ (sz : Int) then ⟨false, none, 0⟩
              else ⟨true, some (e.content.take sz), (sz : Int)⟩
  | _, _ => ⟨false, dataIn, sizeIn⟩

/-- `TEMP_DIR` (zip_support.cpp line 28), also `zip_get_temp_dir`. -/
def TEMP_DIR : List Char := String.toList "ux0:temp/vicevita_zip/"

/-- Process-wide mutable state touched by the scratch-file writer: the
static `temp_counter`, the scratch directory's existence, and the files
written so far (most recent write first; a write to an existing path
shadows the earlier content, as `SCE_O_TRUNC` does). -/
structure TempState where
  counter : Nat
  dir_created : Bool
  files : List (List Char × List Nat)
deriving Repr, DecidableEq

/-- Filesystem behaviour oracle for `sceIoOpen` / `sceIoWrite`. -/
structure IoOracle where
  /-- `sceIoOpen(path, WRONLY|CREAT|TRUNC, 0777) >= 0`. -/
  open_ok : List Char → Bool
  /-- Bytes `sceIoWrite` reports written for a given path and request. -/
  bytes_written : List Char → Nat → Int

/-- Base filename derivation (zip_support.cpp lines 196-201): everything
after the last '/', or the whole name when it has none. -/
def baseFilename (filename : List Char) : List Char :=
  match strrchr filename '/' with
  | some r => r.tail
  | none => filename

/-- `zip_extract_file_to_temp_internal` (zip_support.cpp lines 179-217):
extract to a buffer; on success create the scratch directory, bump the
static counter, compose `TEMP_DIR ++ "temp_<counter>_<base>"`, open and
write the file, and succeed iff the write count equals the size.  Returns
(C return value, final value of the out-string `temp_path`, final global
state). -/
def zip_extract_file_to_temp_internal (io : IoOracle)
    (archive : Option ZipArchiveHandle) (filename : Option (List Char))
    (tpIn : List Char) (st : TempState) : Bool × List Char × TempState :=
  let r := zip_extract_file_internal archive filename true true none 0
  if ¬r.ret then (false, tpIn, st)
  else
    let data := r.data.getD []
    let st1 : TempState := { st with dir_created := true, counter := st.counter + 1 }
    let base := baseFilename (filename.getD [])
    let temp_path :=
      TEMP_DIR ++ String.toList "temp_" ++ std_to_string st1.counter
        ++ String.toList "_" ++ base
    if ¬io.open_ok temp_path then (false, temp_path, st1)
    else
      let bw := io.bytes_written temp_path data.length
      let written := data.take bw.toNat
      let st2 : TempState := { st1 with files := (temp_path, written) :: st1.files }
      (bw = r.size, temp_path, st2)

/-- `zip_file_exists_internal` (zip_support.cpp lines 219-231): linear scan
of the catalog for an exact-name non-directory entry. -/
def zip_file_exists_internal (archive : Option ZipArchiveHandle)
    (filename : Option (List Char)) : Bool :=
  match archive, filename with
  | some a, some fn =>
      a.is_open && a.entries.any (fun e => e.filename = fn && !e.is_directory)
  | _, _ => false

/-- The default extension table of `zip_is_supported_extension_internal`
(zip_support.cpp lines 259-262). -/
def supported_exts : List (List Char) :=
  [String.toList ".prg", String.toList ".p00", String.toList ".t64",
   String.toList ".tap", String.toList ".d64", String.toList ".d71",
   String.toList ".d81", String.toList ".x64", String.toList ".g64",
   String.toList ".crt", String.toList ".bin", String.toList ".rom"]

/-- `zip_is_supported_extension_internal` (zip_support.cpp lines 252-271):
the suffix from the last dot is compared case-insensitively against the
fixed table. -/
def zip_is_supported_extension_internal (filename : Option (List Char)) : Bool :=
  match filename with
  | none => false
  | some s =>
      match strrchr s '.' with
      | none => false
      | some ext => supported_exts.any (fun e => strcasecmp_custom ext e = 0)

/-- Scan loop of `zip_find_rom_in_archive` (zip_support.cpp lines 279-300):
walk the catalog in stored order, skipping directories and dot-less names;
with a caller-supplied list, return the first entry whose suffix matches
some list element case-insensitively; with a null list, return the first
entry passing the default-table check. -/
def findRomLoop (exts : Option (List (List Char))) : List ZipEntry → Option (List Char)
  | [] => none
  | entry :: rest =>
      if entry.is_directory then findRomLoop exts rest
      else
        match strrchr entry.filename '.' with
        | none => findRomLoop exts rest
        | some ext =>
            match exts with
            | some lst =>
                if lst.any (fun e => strcasecmp_custom ext e = 0) then some entry.filename
                else findRomLoop exts rest
            | none =>
                if zip_is_supported_extension_internal (some entry.filename) then
                  some entry.filename
                else findRomLoop exts rest

/-- `zip_find_rom_in_archive` (zip_support.cpp lines 273-303). -/
def zip_find_rom_in_archive (archive : Option ZipArchiveHandle)
    (supported_extensions : Option (List (List Char))) : Option (List Char) :=
  match archive with
  | none => none
  | some a => if ¬a.is_open then none else findRomLoop supported_extensions a.entries

/-- `zip_extract_rom_to_temp` (zip_support.cpp lines 305-321): open, locate
a ROM entry, extract it to the scratch directory.  The handle close on each
exit path acts on the registry state, modelled by the registry component
below; the value and scratch-state behaviour is as composed here. -/
def zip_extract_rom_to_temp (fs : List Char → Option (List RawEntry)) (io : IoOracle)
    (zip_path : Option (List Char)) (supported_extensions : Option (List (List Char)))
    (tpIn : List Char) (st : TempState) : Bool × List Char × TempState :=
  match zip_open_archive fs zip_path with
  | none => (false, tpIn, st)
  | some a =>
      match zip_find_rom_in_archive (some a) supported_extensions with
      | none => (false, tpIn, st)
      | some rom => zip_extract_file_to_temp_internal io (some a) (some rom) tpIn st

/-- `zip_extract_file_to_temp_c` (zip_support.cpp lines 324-334): run the
internal writer on a fresh string; return 1 and copy the path into the
caller's buffer (`strcpy`, writing length + 1 bytes) only when the writer
succeeded and the path length is strictly below `buffer_size`; otherwise
return 0 and leave the caller's buffer untouched. -/
def zip_extract_file_to_temp_c (io : IoOracle) (archive : Option ZipArchiveHandle)
    (filename : Option (List Char)) (bufIn : List Char) (buffer_size : Nat)
    (st : TempState) : Int × List Char × TempState :=
  let r := zip_extract_file_to_temp_internal io archive filename [] st
  if r.1 && decide (r.2.1.length < buffer_size) then (1, r.2.1, r.2.2)
  else (0, bufIn, r.2.2)

/-- `zip_extract_rom_to_temp_c` (zip_support.cpp lines 336-346): same
buffer contract around `zip_extract_rom_to_temp`. -/
def zip_extract_rom_to_temp_c (fs : List Char → Option (List RawEntry)) (io : IoOracle)
    (zip_path : Option (List Char)) (supported_extensions : Option (List (List Char)))
    (bufIn : List Char) (buffer_size : Nat) (st : TempState) : Int × List Char × TempState :=
  let r := zip_extract_rom_to_temp fs io zip_path supported_extensions [] st
  if r.1 && decide (r.2.1.length < buffer_size) then (1, r.2.1, r.2.2)
  else (0, bufIn, r.2.2)

/-- `zip_extract_file` (zip_support.cpp lines 348-351). -/
def zip_extract_file (archive : Option ZipArchiveHandle) (filename : Option (List Char))
    (data_ptr size_ptr : Bool) (dataIn : Option (List Nat)) (sizeIn : Int) :
    Int × ExtractOut :=
  let r := zip_extract_file_internal archive filename data_ptr size_ptr dataIn sizeIn
  (if r.ret then 1 else 0, r)

/-- `zip_list_contents` (zip_support.cpp lines 379-383): a stub that
returns 1 for every input and writes nothing through `entries`.  The pair
returned is (C return value, the `entries` cell exactly as the caller left
it). -/
def zip_list_contents (archive : Option ZipArchiveHandle)
    (entries : Option (List ZipEntry)) : Int × Option (List ZipEntry) :=
  (1, entries)

/-- Heap view of one `ZipArchiveHandle` object for the registry component:
just the fields the shutdown path touches.  `freed` records that `delete`
ran; the model assumes freed memory still holds its last-written bytes
(`is_open = false`), which is the concrete behaviour the shutdown loop's
stale reads observe. -/
structure ArchiveObj where
  is_open : Bool
  freed : Bool
deriving Repr, DecidableEq

/-- `std::vector<ZipArchiveHandle*>` with its backing memory made visible:
`store` is the backing cells (handles named by heap index), `size` the live
element count.  `erase` shifts the live elements left and decrements
`size`; the cells at and beyond the new size keep their old values, which
is what an iterator running past the live region reads. -/
structure RegVec where
  store : List Nat
  size : Nat
deriving Repr, DecidableEq

/-- `vector::erase` at live index `i`: cells before `i` unchanged, cells
`i .. size-2` take their right neighbour's value, cells from `size-1` on
keep their stale contents. -/
def vecEraseAt (v : RegVec) (i : Nat) : RegVec :=
  { store := v.store.take i ++ (v.store.drop (i + 1)).take (v.size - 1 - i)
      ++ v.store.drop (v.size - 1)
    size := v.size - 1 }

/-- Global state of the registry component: the handle heap and
`g_open_archives`. -/
structure CleanupState where
  heap : List ArchiveObj
  reg : RegVec
deriving Repr, DecidableEq

/-- Heap read; a freed object reads back its last-written field values. -/
def heapGet (h : List ArchiveObj) (id : Nat) : ArchiveObj :=
  h.getD id { is_open := false, freed := false }

/-- `zip_close_archive` (zip_support.cpp lines 117-134): no-op on a null or
not-open handle; otherwise release the codec session, clear `is_open`,
erase the first matching registry element (`std::find` + `erase`), and
`delete` the object. -/
def zip_close_archive (s : CleanupState) (archive : Option Nat) : CleanupState :=
  match archive with
  | none => s
  | some id =>
      if ¬(heapGet s.heap id).is_open then s
      else
        let heap1 := s.heap.set id { is_open := false, freed := true }
        let reg1 :=
          match (s.reg.store.take s.reg.size).findIdx? (fun x => x = id) with
          | some j => vecEraseAt s.reg j
          | none => s.reg
        { heap := heap1, reg := reg1 }

/-- One iteration of the shutdown range-for (zip_support.cpp lines
363-367): read cell `k` of the backing store (a stale value once `erase`
has shifted the live elements), and close that handle when its `is_open`
byte reads true. -/
def cleanupIter (s : CleanupState) (k : Nat) : CleanupState :=
  let id := s.reg.store.getD k 0
  if (heapGet s.heap id).is_open then zip_close_archive s (some id) else s

/-- `zip_cleanup_temp_files` (zip_support.cpp lines 358-372): the range-for
captures `begin`/`end` once, so with `n` elements at entry it performs
exactly `n` single-step iterator advances over the backing cells
`0 .. n-1`, while `zip_close_archive` concurrently erases from the same
vector; afterwards `g_open_archives.clear()` sets the size to zero without
touching the cells. -/
def zip_cleanup_temp_files (s : CleanupState) : CleanupState :=
  let n := s.reg.size
  let s1 := (List.range n).foldl cleanupIter s
  { s1 with reg := { s1.reg with size := 0 } }

/-- Number of handles still open on the heap. -/
def openCount (s : CleanupState) : Nat :=
  (s.heap.filter (fun o => o.is_open)).length

/-- A C string contains no NUL character (the terminator is the list
end). -/
def noNul (s : List Char) : Prop := ∀ c ∈ s, c.toNat ≠ 0

instance (s : List Char) : Decidable (noNul s) := by
  unfold noNul; infer_instance

theorem charToNat_inj {a b : Char} (h : a.toNat = b.toNat) : a = b :=
  Char.eq_of_val_eq (UInt32.ext h)

/-- `strcasecmp_custom` returns 0 exactly on ASCII-case-insensitive equal
NUL-free strings. -/
theorem strcasecmp_eq_zero_iff : ∀ s1 s2 : List Char, noNul s1 → noNul s2 →
    (strcasecmp_custom s1 s2 = 0 ↔ s1.map lowerAscii = s2.map lowerAscii)
  | [], [] => by intro _ _; simp [strcasecmp_custom]
  | [], c :: s => by
      intro _ h2
      have hc : c.toNat ≠ 0 := h2 c (by simp)
      have h0 : (Char.ofNat 0).toNat = 0 := by decide
      simp only [strcasecmp_custom, List.headD, List.map_nil, List.map_cons, h0]
      constructor
      · intro h; omega
      · intro h; exact absurd h (by simp)
  | c :: s, [] => by
      intro h1 _
      have hc : c.toNat ≠ 0 := h1 c (by simp)
      have h0 : (Char.ofNat 0).toNat = 0 := by decide
      simp only [strcasecmp_custom, List.headD, List.map_nil, List.map_cons, h0]
      constructor
      · intro h; omega
      · intro h; exact absurd h (by simp)
  | c1 :: s1, c2 :: s2 => by
      intro h1 h2
      by_cases h : lowerAscii c1 = lowerAscii c2
      · rw [strcasecmp_custom]
        simp only [h, ne_eq, not_true_eq_false, if_false, ite_false, not_not]
        rw [strcasecmp_eq_zero_iff s1 s2 (fun c hc => h1 c (by simp [hc]))
              (fun c hc => h2 c (by simp [hc]))]
        simp [h]
      · rw [strcasecmp_custom, if_pos h]
        constructor
        · intro habs
          have : (lowerAscii c1).toNat = (lowerAscii c2).toNat := by omega
          exact absurd (charToNat_inj this) h
        · intro habs
          simp only [List.map_cons, List.cons.injEq] at habs
          exact absurd habs.1 h

/-- The suffix `strrchr` returns really is a suffix of its argument. -/
theorem strrchr_isSuffix : ∀ {s : List Char} {c : Char} {r : List Char},
    strrchr s c = some r → r <:+ s
  | [], _, _ => by intro h; simp [strrchr] at h
  | x :: xs, c, r => by
      intro h
      rw [strrchr] at h
      cases hrec : strrchr xs c with
      | some r2 =>
          rw [hrec] at h
          cases h
          exact (strrchr_isSuffix hrec).trans (List.suffix_cons x xs)
      | none =>
          rw [hrec] at h
          by_cases hx : x = c
          · rw [if_pos hx] at h
            cases h
            exact List.suffix_rfl
          · rw [if_neg hx] at h
            cases h

/-- NUL-freeness passes to suffixes. -/
theorem noNul_of_suffix {r s : List Char} (h : r <:+ s) (hs : noNul s) : noNul r :=
  fun c hc => hs c (h.subset hc)

theorem digitChar_toNat : ∀ d < 10, (digitChar d).toNat = 48 + d := by decide

theorem natDigitsAux_zero (fuel : Nat) (acc : List Char) :
    natDigitsAux fuel 0 acc = acc := by
  cases fuel with
  | zero => rfl
  | succ f => simp [natDigitsAux]

theorem natDigitsAux_eq_append (fuel : Nat) : ∀ n : Nat, ∀ acc : List Char,
    natDigitsAux fuel n acc = natDigitsAux fuel n [] ++ acc := by
  induction fuel with
  | zero => intro n acc; rfl
  | succ f ih =>
      intro n acc
      by_cases hn : n = 0
      · simp [natDigitsAux, hn]
      · rw [natDigitsAux, if_neg hn, natDigitsAux, if_neg hn,
          ih (n / 10) (digitChar (n % 10) :: acc), ih (n / 10) [digitChar (n % 10)]]
        simp

theorem decimalVal_append_digit (xs : List Char) (c : Char) :
    decimalVal (xs ++ [c]) = 10 * decimalVal xs + (c.toNat - 48) := by
  simp [decimalVal, List.foldl_append]

theorem decimalVal_natDigits : ∀ fuel n : Nat, n ≠ 0 → n ≤ fuel →
    decimalVal (natDigitsAux fuel n []) = n := by
  intro fuel
  induction fuel with
  | zero => intro n hn hle; omega
  | succ f ih =>
      intro n hn hle
      have hd : (digitChar (n % 10)).toNat = 48 + n % 10 :=
        digitChar_toNat _ (Nat.mod_lt _ (by norm_num))
      rw [natDigitsAux, if_neg hn, natDigitsAux_eq_append]
      by_cases hq : n / 10 = 0
      · rw [hq, natDigitsAux_zero]
        have hv : decimalVal [digitChar (n % 10)] = n % 10 := by
          simp [decimalVal, hd]
        rw [List.nil_append, hv]
        omega
      · have hdivlt : n / 10 < n := Nat.div_lt_self (by omega) (by norm_num)
        rw [decimalVal_append_digit, ih (n / 10) hq (by omega), hd]
        omega

theorem decimalVal_std_to_string (n : Nat) : decimalVal (std_to_string n) = n := by
  by_cases h : n = 0
  · subst h; decide
  · rw [std_to_string, if_neg h]; exact decimalVal_natDigits n n h (le_refl n)

theorem std_to_string_inj {a b : Nat} (h : std_to_string a = std_to_string b) : a = b := by
  rw [← decimalVal_std_to_string a, ← decimalVal_std_to_string b, h]

theorem listLoop_append (xs ys : List RawEntry) :
    listLoop (xs ++ ys) = listLoop xs ++ listLoop ys := by
  induction xs with
  | nil => simp [listLoop]
  | cons e rest ih =>
      by_cases h : e.info_ok
      · simp [listLoop, h, ih]
      · simp [listLoop, h, ih]

theorem mkEntry_mem_listLoop {e : RawEntry} {l : List RawEntry}
    (hmem : e ∈ l) (hok : e.info_ok = true) : mkEntry e ∈ listLoop l := by
  induction l with
  | nil => cases hmem
  | cons x rest ih =>
      rw [listLoop]
      rcases List.mem_cons.mp hmem with h | h
      · subst h; rw [if_pos hok]; exact List.mem_cons_self _ _
      · by_cases hx : x.info_ok
        · rw [if_pos hx]; exact List.mem_cons_of_mem _ (ih h)
        · rw [if_neg hx]; exact ih h

/-- Modelled from the spec's words (§8, C4): the path's name ends,
case-insensitively, in the container extension ".zip".  Compared against
the source-derived `zip_is_archive` / `zip_open_archive`. -/
def specNameEndsInZip : Option (List Char) → Prop
  | none => False
  | some s => String.toList ".zip" <:+ s.map lowerAscii

instance (p : Option (List Char)) : Decidable (specNameEndsInZip p) :=
  match p with
  | none => isFalse (fun h => h)
  | some s => inferInstanceAs (Decidable (String.toList ".zip" <:+ s.map lowerAscii))

/-- Modelled from the spec's words (§4.6, C3): an entry qualifies when it
is not a directory and its suffix from the last dot equals, under ASCII
lower-casing, some element of the wanted list.  Compared against the
source-derived `zip_find_rom_in_archive`. -/
def qualifiesMedia (lst : List (List Char)) (e : ZipEntry) : Bool :=
  !e.is_directory &&
    (match strrchr e.filename '.' with
     | none => false
     | some ext => lst.any (fun x => ext.map lowerAscii = x.map lowerAscii))

/-- The extension list the locator effectively scans: the supplied one, or
the fixed default table when none is supplied. -/
def effectiveExts (exts : Option (List (List Char))) : List (List Char) :=
  exts.getD supported_exts

theorem any_congr {α : Type} (l : List α) (f g : α → Bool)
    (h : ∀ x ∈ l, f x = g x) : l.any f = l.any g := by
  induction l with
  | nil => rfl
  | cons x xs ih =>
      simp only [List.any_cons, h x (List.mem_cons_self x xs)]
      rw [ih (fun y hy => h y (List.mem_cons_of_mem x hy))]

/-- On NUL-free data the code's `strcasecmp_custom == 0` scan agrees with
the spec's lower-cased-equality scan. -/
theorem any_strcasecmp_eq (ext : List Char) (lst : List (List Char))
    (hext : noNul ext) (hlst : ∀ x ∈ lst, noNul x) :
    (lst.any fun e => strcasecmp_custom ext e = 0)
      = (lst.any fun x => ext.map lowerAscii = x.map lowerAscii) := by
  apply any_congr
  intro x hx
  have := strcasecmp_eq_zero_iff ext x hext (hlst x hx)
  simp only [decide_eq_decide]
  exact this

theorem supported_exts_noNul : ∀ x ∈ supported_exts, noNul x := by decide

/-- The locator's scan loop returns exactly the first qualifying entry of
the catalog, in stored order. -/
theorem findRomLoop_eq_find (exts : Option (List (List Char)))
    (hext : ∀ x ∈ effectiveExts exts, noNul x) :
    ∀ l : List ZipEntry, (∀ e ∈ l, noNul e.filename) →
      findRomLoop exts l
        = (l.find? fun e => qualifiesMedia (effectiveExts exts) e).map
            (fun e => e.filename)
  | [] => by intro _; rfl
  | entry :: rest => by
      intro hnul
      have hrest : ∀ e ∈ rest, noNul e.filename :=
        fun e he => hnul e (List.mem_cons_of_mem _ he)
      have ihr := findRomLoop_eq_find exts hext rest hrest
      by_cases hdir : entry.is_directory
      · have hq : qualifiesMedia (effectiveExts exts) entry = false := by
          simp [qualifiesMedia, hdir]
        rw [findRomLoop, if_pos hdir, List.find?_cons, hq, ihr]
      · cases hex : strrchr entry.filename '.' with
        | none =>
            have hq : qualifiesMedia (effectiveExts exts) entry = false := by
              simp [qualifiesMedia, hdir, hex]
            rw [findRomLoop, if_neg hdir, hex, List.find?_cons, hq, ihr]
        | some ext =>
            have hextnul : noNul ext :=
              noNul_of_suffix (strrchr_isSuffix hex)
                (hnul entry (List.mem_cons_self _ _))
            have hb := any_strcasecmp_eq ext (effectiveExts exts) hextnul hext
            have hq : qualifiesMedia (effectiveExts exts) entry
                = (effectiveExts exts).any fun x => ext.map lowerAscii = x.map lowerAscii := by
              simp [qualifiesMedia, hdir, hex]
            cases exts with
            | some lst =>
                have hlst : effectiveExts (some lst) = lst := rfl
                rw [hlst] at hb hq
                by_cases hmatch : (lst.any fun e => strcasecmp_custom ext e = 0) = true
                · have hqt : qualifiesMedia (effectiveExts (some lst)) entry = true := by
                    rw [hlst, hq, ← hb]; exact hmatch
                  rw [findRomLoop, if_neg hdir]
                  simp only [hex]
                  rw [if_pos hmatch, List.find?_cons_of_pos _ hqt]
                  rfl
                · have hqf : qualifiesMedia (effectiveExts (some lst)) entry = false := by
                    rw [hlst, hq, ← hb]
                    exact Bool.not_eq_true _ |>.mp hmatch
                  rw [findRomLoop, if_neg hdir]
                  simp only [hex]
                  rw [if_neg hmatch, List.find?_cons_of_neg _ (by rw [hqf]; simp), ihr]
            | none =>
                have hsup : zip_is_supported_extension_internal (some entry.filename)
                    = (supported_exts.any fun e => decide (strcasecmp_custom ext e = 0)) := by
                  simp [zip_is_supported_extension_internal, hex]
                have hdef : effectiveExts (none : Option (List (List Char)))
                    = supported_exts := rfl
                rw [hdef] at hb hq
                by_cases hmatch : zip_is_supported_extension_internal (some entry.filename) = true
                · have hqt : qualifiesMedia (effectiveExts (none : Option (List (List Char)))) entry = true := by
                    rw [hdef, hq, ← hb, ← hsup]
                    exact hmatch
                  rw [findRomLoop, if_neg hdir]
                  simp only [hex]
                  rw [if_pos hmatch, List.find?_cons_of_pos _ hqt]
                  rfl
                · have hqf : qualifiesMedia (effectiveExts (none : Option (List (List Char)))) entry = false := by
                    rw [hdef, hq, ← hb, ← hsup]
                    exact Bool.not_eq_true _ |>.mp hmatch
                  rw [findRomLoop, if_neg hdir]
                  simp only [hex]
                  rw [if_neg hmatch, List.find?_cons_of_neg _ (by rw [hqf]; simp), ihr]

/-- Claim C8: the public catalog-listing operation `zip_list_contents`
returns success (1) for every input — including a null handle (`none`) and
a null/arbitrary `entries` pointer — and never writes through `entries`
(the caller's cell comes back exactly as it went in); the catalog is not
reported at all. -/
theorem list_contents_is_stub (archive : Option ZipArchiveHandle)
    (entries : Option (List ZipEntry)) :
    zip_list_contents archive entries = (1, entries) := rfl

/-- Claim C5: during catalog construction, a metadata-read failure on one
entry omits only that entry: the cursor advances past it and every
subsequent entry whose metadata reads fine still lands in the catalog; the
listing does not abort. -/
theorem catalog_skips_only_failed_entry (a : ZipArchiveHandle)
    (pre post : List RawEntry) (bad : RawEntry)
    (hopen : a.is_open = true) (hraw : a.raw = pre ++ bad :: post)
    (hbad : bad.info_ok = false) :
    zip_list_contents_internal (some a) = some (listLoop pre ++ listLoop post)
    ∧ ∀ e ∈ post, e.info_ok = true → mkEntry e ∈ listLoop pre ++ listLoop post := by
  constructor
  · have hskip : listLoop (bad :: post) = listLoop post := by
      simp [listLoop, hbad]
    simp only [zip_list_contents_internal]
    rw [if_neg (by simp [hopen]), if_neg (by simp [hraw]), hraw, listLoop_append, hskip]
  · intro e he hok
    exact List.mem_append_right _ (mkEntry_mem_listLoop he hok)

def c5good1 : RawEntry :=
  { name := String.toList "one.prg", info_ok := true, uncompressed_size := 1,
    compressed_size := 1, open_ok := true, read_ok := true, content := [0] }

def c5bad : RawEntry :=
  { name := String.toList "broken", info_ok := false, uncompressed_size := 0,
    compressed_size := 0, open_ok := true, read_ok := true, content := [] }

def c5good2 : RawEntry :=
  { name := String.toList "two.d64", info_ok := true, uncompressed_size := 2,
    compressed_size := 1, open_ok := true, read_ok := true, content := [1, 2] }

def c5archive : ZipArchiveHandle :=
  { raw := [c5good1, c5bad, c5good2], archive_path := String.toList "x.zip",
    is_open := true, entries := [] }

theorem catalog_skips_only_failed_entry_witness :
    zip_list_contents_internal (some c5archive)
      = some (listLoop [c5good1] ++ listLoop [c5good2])
    ∧ ∀ e ∈ [c5good2], e.info_ok = true → mkEntry e ∈ listLoop [c5good1] ++ listLoop [c5good2] :=
  catalog_skips_only_failed_entry c5archive [c5good1] [c5good2] c5bad rfl rfl rfl

/-- Claim C9: the directory flag is derived by reading the entry name's
character at index `strlen(name) - 1`; for every non-empty name (as any
name fitting the catalog's 512-byte buffer must be to matter) that access
is in bounds and yields the flag the catalog stores, while for an empty
stored name the `size_t` index wraps to `2^64 - 1` and the access is out of
bounds. -/
theorem dir_flag_read_in_bounds (name : List Char)
    (h1 : name ≠ []) (h2 : name.length ≤ MAX_FILENAME_LENGTH) :
    (dirFlagIndexInBounds name
      ∧ dirFlagIndex name = name.length - 1
      ∧ deriveIsDirectory name = decide (name.getD (dirFlagIndex name) ' ' = '/'))
    ∧ ¬ dirFlagIndexInBounds [] := by
  have hlen : 1 ≤ name.length := List.length_pos.mpr h1
  have hmax : name.length ≤ 512 := by
    simpa [MAX_FILENAME_LENGTH] using h2
  have hmod : SIZE_T_MOD = 18446744073709551616 := by norm_num [SIZE_T_MOD]
  have hidx : dirFlagIndex name = name.length - 1 := by
    unfold dirFlagIndex
    rw [hmod]
    omega
  refine ⟨⟨?_, hidx, ?_⟩, ?_⟩
  · unfold dirFlagIndexInBounds
    rw [hidx]
    omega
  · rw [hidx]
    have hlt : name.length - 1 < name.length := by omega
    have hlast : name.getLast? = some (name.getD (name.length - 1) ' ') := by
      rw [List.getLast?_eq_getElem?, List.getElem?_eq_getElem hlt,
        List.getD_eq_getElem name ' ' hlt]
    rw [deriveIsDirectory, hlast]
    simp
  · unfold dirFlagIndexInBounds dirFlagIndex
    simp

theorem dir_flag_read_in_bounds_witness :
    (String.toList "a/" ≠ [] ∧ (String.toList "a/").length ≤ MAX_FILENAME_LENGTH)
    ∧ ((dirFlagIndexInBounds (String.toList "a/")
        ∧ dirFlagIndex (String.toList "a/") = (String.toList "a/").length - 1
        ∧ deriveIsDirectory (String.toList "a/")
            = decide ((String.toList "a/").getD (dirFlagIndex (String.toList "a/")) ' ' = '/'))
      ∧ ¬ dirFlagIndexInBounds []) :=
  ⟨⟨by decide, by decide⟩,
    dir_flag_read_in_bounds (String.toList "a/") (by decide) (by decide)⟩

/-- Claim C2 (evaluated at the failing input): with three open handles
tracked, `zip_cleanup_temp_files` empties the registry but leaves the
middle handle open and never releases its codec session — the range-for
iterates over the vector while `zip_close_archive` erases from it, so the
iterator skips the element shifted into the erased slot and then reads a
stale cell holding the already-freed third handle.  The claim's "every
handle open before the call is closed" fails; a second call with nothing
open is indeed a no-op. -/
theorem cleanup_skips_middle_handle :
    ((zip_cleanup_temp_files
        { heap := [{ is_open := true, freed := false },
                   { is_open := true, freed := false },
                   { is_open := true, freed := false }],
          reg := { store := [0, 1, 2], size := 3 } }).reg.size = 0
      ∧ openCount (zip_cleanup_temp_files
          { heap := [{ is_open := true, freed := false },
                     { is_open := true, freed := false },
                     { is_open := true, freed := false }],
            reg := { store := [0, 1, 2], size := 3 } }) = 1)
    ∧ (heapGet (zip_cleanup_temp_files
        { heap := [{ is_open := true, freed := false },
                   { is_open := true, freed := false },
                   { is_open := true, freed := false }],
          reg := { store := [0, 1, 2], size := 3 } }).heap 1).is_open = true
    ∧ zip_cleanup_temp_files (zip_cleanup_temp_files
        { heap := [{ is_open := true, freed := false },
                   { is_open := true, freed := false },
                   { is_open := true, freed := false }],
          reg := { store := [0, 1, 2], size := 3 } })
        = zip_cleanup_temp_files
        { heap := [{ is_open := true, freed := false },
                   { is_open := true, freed := false },
                   { is_open := true, freed := false }],
          reg := { store := [0, 1, 2], size := 3 } } := by decide

/-- Claim C3: for every open handle and extension list,
`zip_find_rom_in_archive` returns the name of the first entry in catalog
(stored) order that is not a directory and whose suffix from the last dot
case-insensitively equals some element of the supplied list (or of the
fixed default table when no list is supplied); catalog order, not extension
list position, picks the winner, and the call fails exactly when no entry
qualifies. -/
theorem find_rom_returns_first_qualifying (a : ZipArchiveHandle)
    (exts : Option (List (List Char)))
    (hopen : a.is_open = true)
    (hent : ∀ e ∈ a.entries, noNul e.filename)
    (hext : ∀ x ∈ effectiveExts exts, noNul x) :
    zip_find_rom_in_archive (some a) exts
      = (a.entries.find? fun e => qualifiesMedia (effectiveExts exts) e).map
          (fun e => e.filename)
    ∧ (zip_find_rom_in_archive (some a) exts = none ↔
        ∀ e ∈ a.entries, qualifiesMedia (effectiveExts exts) e = false) := by
  have hmain : zip_find_rom_in_archive (some a) exts
      = (a.entries.find? fun e => qualifiesMedia (effectiveExts exts) e).map
          (fun e => e.filename) := by
    simp only [zip_find_rom_in_archive]
    rw [if_neg (by simp [hopen])]
    exact findRomLoop_eq_find exts hext a.entries hent
  refine ⟨hmain, ?_⟩
  rw [hmain]
  simp [List.find?_eq_none]

def c3entry1 : ZipEntry :=
  { filename := String.toList "readme.txt", path := String.toList "readme.txt",
    uncompressed_size := 3, compressed_size := 3, is_directory := false }

def c3entry2 : ZipEntry :=
  { filename := String.toList "data/game.crt", path := String.toList "data/game.crt",
    uncompressed_size := 8, compressed_size := 4, is_directory := false }

def c3entry3 : ZipEntry :=
  { filename := String.toList "tool.d64", path := String.toList "tool.d64",
    uncompressed_size := 5, compressed_size := 5, is_directory := false }

def c3archive : ZipArchiveHandle :=
  { raw := [], archive_path := String.toList "games.zip", is_open := true,
    entries := [c3entry1, c3entry2, c3entry3] }

theorem find_rom_returns_first_qualifying_witness :
    (c3archive.is_open = true
      ∧ (∀ e ∈ c3archive.entries, noNul e.filename)
      ∧ (∀ x ∈ effectiveExts none, noNul x))
    ∧ zip_find_rom_in_archive (some c3archive) none
        = (c3archive.entries.find? fun e => qualifiesMedia (effectiveExts none) e).map
            (fun e => e.filename)
    ∧ zip_find_rom_in_archive (some c3archive) none
        = some (String.toList "data/game.crt") :=
  ⟨⟨rfl, by decide, by decide⟩,
    (find_rom_returns_first_qualifying c3archive none rfl (by decide) (by decide)).1,
    by decide⟩

/-- Claim C4: for every path whose name does not end, case-insensitively,
in ".zip" — including names with no dot-delimited suffix, empty names and
the null pointer — `zip_open_archive` returns no handle, whatever the
underlying codec would do. -/
theorem open_rejects_non_container (fs : List Char → Option (List RawEntry))
    (path : Option (List Char))
    (hnul : ∀ s, path = some s → noNul s)
    (h : ¬ specNameEndsInZip path) :
    zip_open_archive fs path = none := by
  match path with
  | none => rfl
  | some p =>
      have hp : noNul p := hnul p rfl
      have harch : zip_is_archive (some p) ≠ 1 := by
        intro hz
        apply h
        simp only [zip_is_archive] at hz
        cases hex : strrchr p '.' with
        | none => simp only [hex] at hz; exact absurd hz (by decide)
        | some ext =>
            simp only [hex] at hz
            by_cases hc : strcasecmp_custom ext (String.toList ".zip") = 0
            · have hmaps := (strcasecmp_eq_zero_iff ext (String.toList ".zip")
                  (noNul_of_suffix (strrchr_isSuffix hex) hp) (by decide)).mp hc
              have hsuf : ext.map lowerAscii <:+ p.map lowerAscii :=
                List.IsSuffix.map lowerAscii (strrchr_isSuffix hex)
              rw [hmaps] at hsuf
              have hzipl : (String.toList ".zip").map lowerAscii = String.toList ".zip" := by
                decide
              rw [hzipl] at hsuf
              exact hsuf
            · rw [if_neg hc] at hz
              simp at hz
      simp only [zip_open_archive]
      rw [if_pos harch]

theorem open_rejects_non_container_witness :
    (noNul (String.toList "game.d64")
      ∧ ¬ specNameEndsInZip (some (String.toList "game.d64")))
    ∧ zip_open_archive (fun _ => some [c5good1]) (some (String.toList "game.d64")) = none :=
  ⟨⟨by decide, by decide⟩,
    open_rejects_non_container (fun _ => some [c5good1]) (some (String.toList "game.d64"))
      (by intro s hs; cases hs; decide) (by decide)⟩

/-- When `zip_extract_file_internal` fails with caller-initialized null
output cells, the cells end null/zero. -/
theorem extract_internal_fail (archive : Option ZipArchiveHandle)
    (filename : Option (List Char)) (data_ptr size_ptr : Bool)
    (h : (zip_extract_file_internal archive filename data_ptr size_ptr none 0).ret = false) :
    zip_extract_file_internal archive filename data_ptr size_ptr none 0
      = ⟨false, none, 0⟩ := by
  cases archive with
  | none => rfl
  | some a =>
      cases filename with
      | none => rfl
      | some fn =>
          simp only [zip_extract_file_internal] at h ⊢
          by_cases hargs : ¬a.is_open ∨ ¬data_ptr ∨ ¬size_ptr
          · rw [if_pos hargs]
          · rw [if_neg hargs] at h ⊢
            cases hloc : unzLocateFile a.raw fn with
            | none => simp only [hloc]
            | some e =>
                simp only [hloc] at h ⊢
                by_cases hinfo : ¬e.info_ok
                · rw [if_pos hinfo]
                · rw [if_neg hinfo] at h ⊢
                  by_cases hopencur : ¬e.open_ok
                  · rw [if_pos hopencur]
                  · rw [if_neg hopencur] at h ⊢
                    by_cases hread : unzReadResult e e.uncompressed_size
                        ≠ (e.uncompressed_size : Int)
                    · rw [if_pos hread]
                    · rw [if_neg hread] at h ⊢
                      exact absurd h (by simp)

/-- When `zip_extract_file_internal` succeeds, it did so on an open handle
after an exact-name lookup, the read count equalled the declared size, and
the returned buffer holds exactly that many bytes. -/
theorem extract_internal_success (archive : Option ZipArchiveHandle)
    (filename : Option (List Char)) (data_ptr size_ptr : Bool)
    (h : (zip_extract_file_internal archive filename data_ptr size_ptr none 0).ret = true) :
    ∃ a fn e, archive = some a ∧ filename = some fn
      ∧ unzLocateFile a.raw fn = some e
      ∧ zip_extract_file_internal archive filename data_ptr size_ptr none 0
          = ⟨true, some (e.content.take e.uncompressed_size), (e.uncompressed_size : Int)⟩
      ∧ e.uncompressed_size ≤ e.content.length
      ∧ unzReadResult e e.uncompressed_size = (e.uncompressed_size : Int)
      ∧ (e.content.take e.uncompressed_size).length = e.uncompressed_size := by
  cases archive with
  | none => exact absurd h (by simp [zip_extract_file_internal])
  | some a =>
      cases filename with
      | none => exact absurd h (by simp [zip_extract_file_internal])
      | some fn =>
          simp only [zip_extract_file_internal] at h ⊢
          by_cases hargs : ¬a.is_open ∨ ¬data_ptr ∨ ¬size_ptr
          · rw [if_pos hargs] at h
            exact absurd h (by simp)
          · rw [if_neg hargs] at h ⊢
            cases hloc : unzLocateFile a.raw fn with
            | none =>
                simp only [hloc] at h
                exact absurd h (by simp)
            | some e =>
                simp only [hloc] at h ⊢
                by_cases hinfo : ¬e.info_ok
                · rw [if_pos hinfo] at h
                  exact absurd h (by simp)
                · rw [if_neg hinfo] at h ⊢
                  by_cases hopencur : ¬e.open_ok
                  · rw [if_pos hopencur] at h
                    exact absurd h (by simp)
                  · rw [if_neg hopencur] at h ⊢
                    by_cases hread : unzReadResult e e.uncompressed_size
                        ≠ (e.uncompressed_size : Int)
                    · rw [if_pos hread] at h
                      exact absurd h (by simp)
                    · rw [if_neg hread] at h ⊢
                      rw [not_not] at hread
                      have hle : e.uncompressed_size ≤ e.content.length := by
                        by_cases hro : e.read_ok
                        · rw [unzReadResult, if_pos hro] at hread
                          have := Nat.cast_inj (R := ℤ).mp hread
                          omega
                        · rw [unzReadResult, if_neg hro] at hread
                          omega
                      refine ⟨a, fn, e, rfl, rfl, hloc, rfl, hle, hread, ?_⟩
                      rw [List.length_take]
                      omega

/-- Claim C1: `zip_extract_file_internal` (the engine of
`zip_extract_file`) either fails with the output cells left null and zero,
or succeeds with a buffer of exactly the located entry's declared
uncompressed size, completely filled; whenever the codec's read count
differs from the declared size, the buffer is discarded and the call
fails — a partially filled buffer is never returned. -/
theorem extract_all_or_nothing (archive : Option ZipArchiveHandle)
    (filename : Option (List Char)) (data_ptr size_ptr : Bool) :
    ((zip_extract_file_internal archive filename data_ptr size_ptr none 0).ret = false →
        zip_extract_file_internal archive filename data_ptr size_ptr none 0
          = ⟨false, none, 0⟩)
    ∧ ((zip_extract_file_internal archive filename data_ptr size_ptr none 0).ret = true →
        ∃ a fn e, archive = some a ∧ filename = some fn
          ∧ unzLocateFile a.raw fn = some e
          ∧ zip_extract_file_internal archive filename data_ptr size_ptr none 0
              = ⟨true, some (e.content.take e.uncompressed_size), (e.uncompressed_size : Int)⟩
          ∧ (e.content.take e.uncompressed_size).length = e.uncompressed_size)
    ∧ (∀ a fn e, archive = some a → filename = some fn →
        unzLocateFile a.raw fn = some e →
        unzReadResult e e.uncompressed_size ≠ (e.uncompressed_size : Int) →
        (zip_extract_file_internal archive filename data_ptr size_ptr none 0).ret = false) := by
  refine ⟨extract_internal_fail archive filename data_ptr size_ptr, ?_, ?_⟩
  · intro h
    obtain ⟨a, fn, e, ha, hf, hloc, heq, _, _, hlen⟩ :=
      extract_internal_success archive filename data_ptr size_ptr h
    exact ⟨a, fn, e, ha, hf, hloc, heq, hlen⟩
  · intro a fn e ha hf hloc hread
    by_contra hne
    have hret : (zip_extract_file_internal archive filename data_ptr size_ptr none 0).ret
        = true := by
      cases hb : (zip_extract_file_internal archive filename data_ptr size_ptr none 0).ret
      · exact absurd hb hne
      · rfl
    obtain ⟨a2, fn2, e2, ha2, hf2, hloc2, _, _, hread2, _⟩ :=
      extract_internal_success archive filename data_ptr size_ptr hret
    rw [ha] at ha2
    rw [hf] at hf2
    cases ha2
    cases hf2
    rw [hloc] at hloc2
    cases hloc2
    exact hread hread2

def c1raw : RawEntry :=
  { name := String.toList "game.prg", info_ok := true, uncompressed_size := 5,
    compressed_size := 5, open_ok := true, read_ok := true, content := [1, 2, 3] }

def c1archive : ZipArchiveHandle :=
  { raw := [c1raw], archive_path := String.toList "a.zip", is_open := true,
    entries := [] }

theorem extract_all_or_nothing_witness :
    (unzLocateFile c1archive.raw (String.toList "game.prg") = some c1raw
      ∧ unzReadResult c1raw c1raw.uncompressed_size ≠ (c1raw.uncompressed_size : Int))
    ∧ (zip_extract_file_internal (some c1archive) (some (String.toList "game.prg"))
        true true none 0).ret = false
    ∧ zip_extract_file_internal (some c1archive) (some (String.toList "game.prg"))
        true true none 0 = ⟨false, none, 0⟩ := by
  have hfail := (extract_all_or_nothing (some c1archive)
      (some (String.toList "game.prg")) true true).2.2 c1archive
      (String.toList "game.prg") c1raw rfl rfl (by decide) (by decide)
  exact ⟨⟨by decide, by decide⟩, hfail,
    (extract_all_or_nothing (some c1archive)
      (some (String.toList "game.prg")) true true).1 hfail⟩


/-- Shape of a successful scratch extraction: the out-string is the
composed scratch path with the bumped counter, the counter advanced by
exactly one, the directory was created, and the file list gained the full
extracted buffer under that path. -/
theorem temp_internal_success_shape (io : IoOracle) (archive : Option ZipArchiveHandle)
    (fn : List Char) (tpIn : List Char) (st : TempState)
    (h : (zip_extract_file_to_temp_internal io archive (some fn) tpIn st).1 = true) :
    zip_extract_file_to_temp_internal io archive (some fn) tpIn st
      = (true,
         TEMP_DIR ++ String.toList "temp_" ++ std_to_string (st.counter + 1)
           ++ String.toList "_" ++ baseFilename fn,
         { counter := st.counter + 1, dir_created := true,
           files := (TEMP_DIR ++ String.toList "temp_" ++ std_to_string (st.counter + 1)
               ++ String.toList "_" ++ baseFilename fn,
             (zip_extract_file_internal archive (some fn) true true none 0).data.getD [])
             :: st.files }) := by
  by_cases hret : (zip_extract_file_internal archive (some fn) true true none 0).ret = true
  · obtain ⟨a, f, e, ha, hf, hloc, heq, hle, hread, hlen⟩ :=
      extract_internal_success archive (some fn) true true hret
    cases hf
    simp only [zip_extract_file_to_temp_internal, heq, Option.getD_some, not_true,
      if_false] at h ⊢
    by_cases hop : io.open_ok (TEMP_DIR ++ String.toList "temp_"
        ++ std_to_string (st.counter + 1) ++ String.toList "_" ++ baseFilename fn) = true
    · rw [if_neg (by simpa using hop)] at h ⊢
      simp only at h
      have hbw := of_decide_eq_true h
      rw [hbw]
      simp [Int.toNat_natCast, List.take_take]
    · rw [if_pos (by simpa using hop)] at h
      simp at h
  · rw [Bool.not_eq_true] at hret
    simp [zip_extract_file_to_temp_internal, hret] at h

/-- Two composed scratch paths with the same base filename agree only when
their counters agree. -/
theorem scratch_path_counter_inj (c1 c2 : Nat) (b : List Char)
    (h : TEMP_DIR ++ String.toList "temp_" ++ std_to_string c1 ++ String.toList "_" ++ b
       = TEMP_DIR ++ String.toList "temp_" ++ std_to_string c2 ++ String.toList "_" ++ b) :
    c1 = c2 := by
  apply std_to_string_inj
  simp only [List.append_assoc] at h
  exact List.append_cancel_right (List.append_cancel_left (List.append_cancel_left h))

theorem std_to_string_inj_check : std_to_string 1 ≠ std_to_string 2 := by decide

/-- Claim C7: every successful scratch extraction writes to
`scratchDir/temp_<counter>_<baseFilename>` with the directory prefix of the
entry name stripped and the process-lifetime counter bumped by one, so two
successive successful extractions of the same entry name land on distinct
destination paths. -/
theorem scratch_paths_distinct
    (io io2 : IoOracle) (archive archive2 : Option ZipArchiveHandle)
    (fn tpIn tpIn2 : List Char) (st : TempState)
    (h1 : (zip_extract_file_to_temp_internal io archive (some fn) tpIn st).1 = true) :
    (zip_extract_file_to_temp_internal io archive (some fn) tpIn st).2.1
      = TEMP_DIR ++ String.toList "temp_" ++ std_to_string (st.counter + 1)
        ++ String.toList "_" ++ baseFilename fn
    ∧ (zip_extract_file_to_temp_internal io archive (some fn) tpIn st).2.2.counter
        = st.counter + 1
    ∧ ((zip_extract_file_to_temp_internal io2 archive2 (some fn) tpIn2
          (zip_extract_file_to_temp_internal io archive (some fn) tpIn st).2.2).1 = true →
        (zip_extract_file_to_temp_internal io2 archive2 (some fn) tpIn2
          (zip_extract_file_to_temp_internal io archive (some fn) tpIn st).2.2).2.1
        ≠ (zip_extract_file_to_temp_internal io archive (some fn) tpIn st).2.1) := by
  have hs1 := temp_internal_success_shape io archive fn tpIn st h1
  refine ⟨by rw [hs1], by rw [hs1], ?_⟩
  intro h2 heqpath
  have hs2 := temp_internal_success_shape io2 archive2 fn tpIn2 _ h2
  rw [hs1] at hs2
  rw [hs1, hs2] at heqpath
  simp only at heqpath
  have := scratch_path_counter_inj _ _ _ heqpath
  omega

def tmpRaw : RawEntry :=
  { name := String.toList "d/g.prg", info_ok := true, uncompressed_size := 2,
    compressed_size := 2, open_ok := true, read_ok := true, content := [5, 6] }

def tmpArchive : ZipArchiveHandle :=
  { raw := [tmpRaw], archive_path := String.toList "a.zip", is_open := true,
    entries := [] }

def allOkIo : IoOracle :=
  { open_ok := fun _ => true, bytes_written := fun _ n => (n : Int) }

def st0 : TempState := { counter := 0, dir_created := false, files := [] }

theorem scratch_paths_distinct_witness :
    (zip_extract_file_to_temp_internal allOkIo (some tmpArchive)
        (some (String.toList "d/g.prg")) [] st0).1 = true
    ∧ (zip_extract_file_to_temp_internal allOkIo (some tmpArchive)
        (some (String.toList "d/g.prg")) [] st0).2.1
      = TEMP_DIR ++ String.toList "temp_" ++ std_to_string (st0.counter + 1)
        ++ String.toList "_" ++ baseFilename (String.toList "d/g.prg")
    ∧ (zip_extract_file_to_temp_internal allOkIo (some tmpArchive)
        (some (String.toList "d/g.prg")) [] st0).2.2.counter = st0.counter + 1
    ∧ ((zip_extract_file_to_temp_internal allOkIo (some tmpArchive)
          (some (String.toList "d/g.prg")) []
          (zip_extract_file_to_temp_internal allOkIo (some tmpArchive)
            (some (String.toList "d/g.prg")) [] st0).2.2).1 = true →
        (zip_extract_file_to_temp_internal allOkIo (some tmpArchive)
          (some (String.toList "d/g.prg")) []
          (zip_extract_file_to_temp_internal allOkIo (some tmpArchive)
            (some (String.toList "d/g.prg")) [] st0).2.2).2.1
        ≠ (zip_extract_file_to_temp_internal allOkIo (some tmpArchive)
            (some (String.toList "d/g.prg")) [] st0).2.1) :=
  ⟨by decide,
    scratch_paths_distinct allOkIo allOkIo (some tmpArchive) (some tmpArchive)
      (String.toList "d/g.prg") [] [] st0 (by decide)⟩

/-- The shared buffer-capacity check of the two C wrappers: copy out and
report 1 only when the inner result succeeded and the path, with its
terminating NUL, fits the caller's buffer. -/
theorem capacity_if_overflow (r : Bool × List Char × TempState) (bufIn : List Char)
    (bs : Nat) (hret : r.1 = true) (hbig : r.2.1.length + 1 > bs) :
    (if r.1 && decide (r.2.1.length < bs) then ((1 : Int), r.2.1, r.2.2)
     else ((0 : Int), bufIn, r.2.2)) = ((0 : Int), bufIn, r.2.2) := by
  have hlt : ¬ r.2.1.length < bs := by omega
  rw [if_neg (by simp [hlt])]

theorem capacity_if_ok (r : Bool × List Char × TempState) (bufIn : List Char)
    (bs : Nat)
    (h : (if r.1 && decide (r.2.1.length < bs) then ((1 : Int), r.2.1, r.2.2)
          else ((0 : Int), bufIn, r.2.2)).1 = 1) :
    r.1 = true ∧ r.2.1.length + 1 ≤ bs
    ∧ (if r.1 && decide (r.2.1.length < bs) then ((1 : Int), r.2.1, r.2.2)
       else ((0 : Int), bufIn, r.2.2)) = ((1 : Int), r.2.1, r.2.2) := by
  by_cases hcond : (r.1 && decide (r.2.1.length < bs)) = true
  · obtain ⟨h1, h2⟩ := Bool.and_eq_true_iff.mp hcond
    have hlt := of_decide_eq_true h2
    exact ⟨h1, by omega, by rw [if_pos hcond]⟩
  · rw [if_neg hcond] at h
    simp only at h
    exact absurd h (by norm_num)

/-- Claim C6: `zip_extract_file_to_temp_c` and `zip_extract_rom_to_temp_c`
return 0 whenever the composed scratch path plus its terminating NUL would
not fit `buffer_size` (leaving the caller's buffer untouched), and return 1
with the path copied only when the path length is strictly below
`buffer_size`. -/
theorem temp_c_buffer_capacity_contract
    (io : IoOracle) (archive : Option ZipArchiveHandle) (filename : Option (List Char))
    (bufIn : List Char) (buffer_size : Nat) (st : TempState)
    (fs : List Char → Option (List RawEntry)) (zip_path : Option (List Char))
    (exts : Option (List (List Char))) (bufIn2 : List Char) (buffer_size2 : Nat)
    (st2 : TempState) :
    (((zip_extract_file_to_temp_internal io archive filename [] st).1 = true →
        (zip_extract_file_to_temp_internal io archive filename [] st).2.1.length + 1
            > buffer_size →
        zip_extract_file_to_temp_c io archive filename bufIn buffer_size st
          = (0, bufIn, (zip_extract_file_to_temp_internal io archive filename [] st).2.2))
      ∧ ((zip_extract_file_to_temp_c io archive filename bufIn buffer_size st).1 = 1 →
          (zip_extract_file_to_temp_internal io archive filename [] st).1 = true
          ∧ (zip_extract_file_to_temp_internal io archive filename [] st).2.1.length + 1
              ≤ buffer_size
          ∧ zip_extract_file_to_temp_c io archive filename bufIn buffer_size st
              = (1, (zip_extract_file_to_temp_internal io archive filename [] st).2.1,
                  (zip_extract_file_to_temp_internal io archive filename [] st).2.2)))
    ∧ (((zip_extract_rom_to_temp fs io zip_path exts [] st2).1 = true →
        (zip_extract_rom_to_temp fs io zip_path exts [] st2).2.1.length + 1
            > buffer_size2 →
        zip_extract_rom_to_temp_c fs io zip_path exts bufIn2 buffer_size2 st2
          = (0, bufIn2, (zip_extract_rom_to_temp fs io zip_path exts [] st2).2.2))
      ∧ ((zip_extract_rom_to_temp_c fs io zip_path exts bufIn2 buffer_size2 st2).1 = 1 →
          (zip_extract_rom_to_temp fs io zip_path exts [] st2).1 = true
          ∧ (zip_extract_rom_to_temp fs io zip_path exts [] st2).2.1.length + 1
              ≤ buffer_size2
          ∧ zip_extract_rom_to_temp_c fs io zip_path exts bufIn2 buffer_size2 st2
              = (1, (zip_extract_rom_to_temp fs io zip_path exts [] st2).2.1,
                  (zip_extract_rom_to_temp fs io zip_path exts [] st2).2.2))) :=
  ⟨⟨fun hret hbig => capacity_if_overflow _ bufIn buffer_size hret hbig,
    fun h => capacity_if_ok _ bufIn buffer_size h⟩,
   ⟨fun hret hbig => capacity_if_overflow _ bufIn2 buffer_size2 hret hbig,
    fun h => capacity_if_ok _ bufIn2 buffer_size2 h⟩⟩

theorem temp_c_buffer_capacity_contract_witness :
    (zip_extract_file_to_temp_internal allOkIo (some tmpArchive)
        (some (String.toList "d/g.prg")) [] st0).1 = true
    ∧ (zip_extract_file_to_temp_internal allOkIo (some tmpArchive)
        (some (String.toList "d/g.prg")) [] st0).2.1.length + 1 > 1
    ∧ zip_extract_file_to_temp_c allOkIo (some tmpArchive)
        (some (String.toList "d/g.prg")) [] 1 st0
      = (0, [], (zip_extract_file_to_temp_internal allOkIo (some tmpArchive)
          (some (String.toList "d/g.prg")) [] st0).2.2) :=
  ⟨by decide, by decide,
    (temp_c_buffer_capacity_contract allOkIo (some tmpArchive)
        (some (String.toList "d/g.prg")) [] 1 st0 (fun _ => none) none none [] 0
        st0).1.1 (by decide) (by decide)⟩

/-- Claim C10: when `zip_extract_file_to_temp_c` fails solely because the
composed scratch path does not fit the caller's buffer, the scratch file
has already been created and fully written with the extracted bytes and a
counter value has been consumed — the 0 return does not mean the
filesystem and counter state are unchanged. -/
theorem temp_c_failure_leaves_file_written
    (io : IoOracle) (archive : Option ZipArchiveHandle) (fn : List Char)
    (bufIn : List Char) (buffer_size : Nat) (st : TempState)
    (hret : (zip_extract_file_to_temp_internal io archive (some fn) [] st).1 = true)
    (hbig : (zip_extract_file_to_temp_internal io archive (some fn) [] st).2.1.length + 1
        > buffer_size) :
    zip_extract_file_to_temp_c io archive (some fn) bufIn buffer_size st
      = (0, bufIn, (zip_extract_file_to_temp_internal io archive (some fn) [] st).2.2)
    ∧ (zip_extract_file_to_temp_internal io archive (some fn) [] st).2.2.counter
        = st.counter + 1
    ∧ (zip_extract_file_to_temp_internal io archive (some fn) [] st).2.2.files
        = ((zip_extract_file_to_temp_internal io archive (some fn) [] st).2.1,
           (zip_extract_file_internal archive (some fn) true true none 0).data.getD [])
          :: st.files
    ∧ (zip_extract_file_to_temp_internal io archive (some fn) [] st).2.2.dir_created
        = true := by
  have hs := temp_internal_success_shape io archive fn [] st hret
  refine ⟨capacity_if_overflow _ bufIn buffer_size hret hbig, by rw [hs], ?_, by rw [hs]⟩
  rw [hs]

theorem temp_c_failure_leaves_file_written_witness :
    ((zip_extract_file_to_temp_internal allOkIo (some tmpArchive)
        (some (String.toList "d/g.prg")) [] st0).1 = true
      ∧ (zip_extract_file_to_temp_internal allOkIo (some tmpArchive)
          (some (String.toList "d/g.prg")) [] st0).2.1.length + 1 > 4)
    ∧ zip_extract_file_to_temp_c allOkIo (some tmpArchive)
        (some (String.toList "d/g.prg")) (String.toList "old") 4 st0
      = (0, String.toList "old",
         (zip_extract_file_to_temp_internal allOkIo (some tmpArchive)
            (some (String.toList "d/g.prg")) [] st0).2.2)
    ∧ (zip_extract_file_to_temp_internal allOkIo (some tmpArchive)
        (some (String.toList "d/g.prg")) [] st0).2.2.counter = st0.counter + 1
    ∧ (zip_extract_file_to_temp_internal allOkIo (some tmpArchive)
        (some (String.toList "d/g.prg")) [] st0).2.2.files
      = ((zip_extract_file_to_temp_internal allOkIo (some tmpArchive)
            (some (String.toList "d/g.prg")) [] st0).2.1,
         (zip_extract_file_internal (some tmpArchive) (some (String.toList "d/g.prg"))
            true true none 0).data.getD [])
        :: st0.files :=
  ⟨⟨by decide, by decide⟩,
    (temp_c_failure_leaves_file_written allOkIo (some tmpArchive)
        (String.toList "d/g.prg") (String.toList "old") 4 st0 (by decide) (by decide)).1,
    (temp_c_failure_leaves_file_written allOkIo (some tmpArchive)
        (String.toList "d/g.prg") (String.toList "old") 4 st0 (by decide) (by decide)).2.1,
    (temp_c_failure_leaves_file_written allOkIo (some tmpArchive)
        (String.toList "d/g.prg") (String.toList "old") 4 st0 (by decide) (by decide)).2.2.1⟩
